import Mathlib

/-!
Verification of the GitHub activity exporter (`01_get_activity.py`).

The development shallowly embeds the program's pure core: the Link-header
parser, the pagination loop, the rate-limit/retry request loop, record
normalization, deduplication, date-range resolution, organization
filtering, and the control-flow skeleton of `main` (token check, early
exits, file writing).  Machine-level concerns (the HTTP transport, the
console UI) are modelled as explicit simulated inputs.
-/

namespace ActivityExporter

/-! ## Activity records

A flat record as built by `main` (lines 236-247 for issue/PR search items,
lines 262-270 for commit search items).  Fields that a given kind leaves
out stay `none`, matching the Python dict that simply omits them when the
row is written.  `number` is an integer in the upstream schema; every other
payload field is a string or `None`. -/

structure Rec where
  kind : String
  org : String
  repo : Option String := none
  number : Option Int := none
  title : Option String := none
  state : Option String := none
  url : Option String := none
  created_at : Option String := none
  updated_at : Option String := none
  closed_at : Option String := none
  sha : Option String := none
  message : Option String := none
  author_date : Option String := none
deriving DecidableEq, Repr

/-- Python truthiness-based `or` on an optional string: `x or y` falls back
to `y` when `x` is `None` or the empty string. -/
def pyOrStr (x : Option String) (y : String) : String :=
  match x with
  | none => y
  | some s => if s = "" then y else s

/-- Python `f"{v}"` for an optional string: `None` prints as `"None"`. -/
def pyShowOptStr (x : Option String) : String :=
  match x with
  | none => "None"
  | some s => s

/-- Python `f"{v}"` for an optional integer: `None` prints as `"None"`. -/
def pyShowOptInt (x : Option Int) : String :=
  match x with
  | none => "None"
  | some n => toString n

/-- The stable serialization `json.dumps(rec, sort_keys=True)` of a commit
record (keys of the commit dict, alphabetically: author_date, kind,
message, org, repo, sha, url).  Used only as the last-resort dedup
identifier for a commit lacking both SHA and URL. -/
def dumpsCommitRec (r : Rec) : String :=
  let fld : String → Option String → String := fun k v =>
    "\"" ++ k ++ "\": " ++ (match v with
      | none => "null"
      | some s => "\"" ++ s ++ "\"")
  "\x7b" ++ fld "author_date" r.author_date ++ ", " ++
    fld "kind" (some r.kind) ++ ", " ++
    fld "message" r.message ++ ", " ++
    fld "org" (some r.org) ++ ", " ++
    fld "repo" r.repo ++ ", " ++
    fld "sha" r.sha ++ ", " ++
    fld "url" r.url ++ "\x7d"

/-- The unique identifier `main` passes to `add_record` for a record:
line 248 for the six issue/PR kinds
(`rec["url"] or f"{org}:{kind}:{rec['repo']}#{rec['number']}"`),
line 271 for commits
(`sha or rec["url"] or json.dumps(rec, sort_keys=True)`).
Both call sites compute the identifier from the record's own fields. -/
def uniqueKeyOf (r : Rec) : String :=
  if r.kind = "commits" then
    pyOrStr r.sha (pyOrStr r.url (dumpsCommitRec r))
  else
    pyOrStr r.url
      (r.org ++ ":" ++ r.kind ++ ":" ++ pyShowOptStr r.repo ++ "#" ++
        pyShowOptInt r.number)

/-- The dedup key `(rec["kind"], unique_key)` of line 175. -/
def dedupKey (r : Rec) : String × String :=
  (r.kind, uniqueKeyOf r)

/-- The aggregator's mutable state: the `seen` set of dedup keys and the
`results` list (lines 171-172). -/
structure DedupState where
  seen : List (String × String)
  results : List Rec

/-- Function `add_record` (lines 174-179): skip the record if its dedup key was
seen, otherwise remember the key and append the record. -/
def add_record (st : DedupState) (rec : Rec) : DedupState :=
  let k := dedupKey rec
  if k ∈ st.seen then st
  else { seen := k :: st.seen, results := st.results ++ [rec] }

/-- Feeding the whole normalized record stream (in fetch order) through
`add_record`, starting from the empty state, and reading off `results`. -/
def runDedup (recs : List Rec) : List Rec :=
  (recs.foldl add_record ⟨[], []⟩).results

/-- Modelled from the spec: "only the first-encountered is retained" -- keep
each record whose dedup key has not occurred earlier in the stream. -/
def keepFirstByKey : List Rec → List Rec
  | [] => []
  | r :: rs => r :: keepFirstByKey (rs.filter fun x => decide (dedupKey x ≠ dedupKey r))
termination_by l => l.length
decreasing_by
  simp only [List.length_cons]
  exact Nat.lt_succ_of_le (List.length_filter_le _ _)

/-- Generalization of `keepFirstByKey` over an initial seen-set. -/
def keepFirstSeen (seen : List (String × String)) : List Rec → List Rec
  | [] => []
  | r :: rs =>
    if dedupKey r ∈ seen then keepFirstSeen seen rs
    else r :: keepFirstSeen (dedupKey r :: seen) rs

lemma foldl_add_record (rs : List Rec) :
    ∀ seen acc, (rs.foldl add_record ⟨seen, acc⟩).results
      = acc ++ keepFirstSeen seen rs := by
  induction rs with
  | nil => intro seen acc; simp [keepFirstSeen]
  | cons r rs ih =>
      intro seen acc
      by_cases h : dedupKey r ∈ seen
      · have hstep : add_record ⟨seen, acc⟩ r = ⟨seen, acc⟩ := by
          simp [add_record, h]
        rw [List.foldl_cons, hstep, keepFirstSeen, if_pos h, ih]
      · have hstep : add_record ⟨seen, acc⟩ r
            = ⟨dedupKey r :: seen, acc ++ [r]⟩ := by
          simp [add_record, h]
        rw [List.foldl_cons, hstep, keepFirstSeen, if_neg h, ih]
        simp

lemma keepFirstSeen_eq (rs : List Rec) :
    ∀ seen, keepFirstSeen seen rs
      = keepFirstByKey (rs.filter fun x => decide (dedupKey x ∉ seen)) := by
  induction rs with
  | nil => intro seen; simp [keepFirstSeen, keepFirstByKey]
  | cons r rs ih =>
      intro seen
      by_cases h : dedupKey r ∈ seen
      · rw [keepFirstSeen, if_pos h, List.filter_cons, ih]
        have hd : (decide (dedupKey r ∉ seen)) = false := by simpa using h
        rw [hd]
        simp
      · rw [keepFirstSeen, if_neg h, List.filter_cons]
        have hd : (decide (dedupKey r ∉ seen)) = true := by
          simpa using h
        rw [if_pos hd, keepFirstByKey, ih, List.filter_filter]
        congr 2
        apply List.filter_congr
        intro x _
        by_cases hx : dedupKey x = dedupKey r
        · simp [hx, h]
        · by_cases hs : dedupKey x ∈ seen <;> simp [hx, hs]

lemma mem_keepFirstByKey :
    ∀ n (l : List Rec), l.length ≤ n → ∀ x ∈ keepFirstByKey l, x ∈ l := by
  intro n
  induction n with
  | zero =>
      intro l hl x hx
      cases l with
      | nil => simp [keepFirstByKey] at hx
      | cons a l => simp at hl
  | succ n ih =>
      intro l hl x hx
      cases l with
      | nil => simp [keepFirstByKey] at hx
      | cons a l =>
          rw [keepFirstByKey] at hx
          rcases List.mem_cons.mp hx with h | h
          · simp [h]
          · have hlen : (l.filter fun x => decide (dedupKey x ≠ dedupKey a)).length ≤ n := by
              have := List.length_filter_le (fun x => decide (dedupKey x ≠ dedupKey a)) l
              simp only [List.length_cons, Nat.succ_le_succ_iff] at hl
              exact le_trans this hl
            have := ih _ hlen x h
            exact List.mem_cons_of_mem a (List.mem_of_mem_filter this)

lemma pairwise_keepFirstByKey :
    ∀ n (l : List Rec), l.length ≤ n →
      (keepFirstByKey l).Pairwise (fun a b => dedupKey a ≠ dedupKey b) := by
  intro n
  induction n with
  | zero =>
      intro l hl
      cases l with
      | nil => simp [keepFirstByKey]
      | cons a l => simp at hl
  | succ n ih =>
      intro l hl
      cases l with
      | nil => simp [keepFirstByKey]
      | cons a l =>
          rw [keepFirstByKey]
          have hlen : (l.filter fun x => decide (dedupKey x ≠ dedupKey a)).length ≤ n := by
            have := List.length_filter_le (fun x => decide (dedupKey x ≠ dedupKey a)) l
            simp only [List.length_cons, Nat.succ_le_succ_iff] at hl
            exact le_trans this hl
          refine List.Pairwise.cons ?_ (ih _ hlen)
          intro b hb
          have hbf := mem_keepFirstByKey _ _ le_rfl b hb
          have hba : dedupKey b ≠ dedupKey a := by
            simpa using List.of_mem_filter hbf
          exact fun hab => hba hab.symm

/-- Claim C1: in every run, the final results sequence contains no two
records sharing the dedup key `(kind, unique-identifier)` -- the identifier
being the record's URL when truthy, else the kind-specific fallback -- and
the sequence retained is exactly the first-encountered record for each
key, every later duplicate being silently discarded. -/
theorem C1_dedup_invariant (recs : List Rec) :
    ((runDedup recs).Pairwise fun a b => dedupKey a ≠ dedupKey b) ∧
      runDedup recs = keepFirstByKey recs := by
  have hrun : runDedup recs = keepFirstByKey recs := by
    rw [runDedup, foldl_add_record, keepFirstSeen_eq]
    simp
  refine ⟨?_, hrun⟩
  rw [hrun]
  exact pairwise_keepFirstByKey recs.length recs le_rfl

/-! ## Link-header parsing (lines 26-37)

`parse_next_link` splits the header on commas and runs the regex
`<([^>]+)>;\s*rel="next"` (re.search semantics: leftmost match) over each
part, returning the first capture group of the first part that matches.
The regex is embedded at character level: `[^>]+` is forced to run to the
first `>` after the opening `<`, and on failure the search restarts one
character further right. -/

/-- ASCII characters matched by the regex class `\s`. -/
def isPySpace (c : Char) : Bool :=
  c = ' ' || c = '\t' || c = '\n' || c = '\r' || c = '\x0b' || c = '\x0c'

/-- The literal characters `rel="`. -/
def relEqQuote : List Char := ['r', 'e', 'l', '=', '"']

/-- The literal characters `next`. -/
def nextLit : List Char := ['n', 'e', 'x', 't']

/-- The literal tail of the regex after `;\s*`, namely `rel="next"`. -/
def relNextPat : List Char := relEqQuote ++ nextLit ++ ['"']

/-- Split the input at the first `>`: capture of `[^>]+` and the
remainder after the `>`; `none` when no `>` occurs. -/
def splitAtGt : List Char → Option (List Char × List Char)
  | [] => none
  | c :: cs =>
    if c = '>' then some ([], cs)
    else
      match splitAtGt cs with
      | none => none
      | some (cap, rest) => some (c :: cap, rest)

/-- Match the regex tail `;\s*rel="next"` at the start of the input. -/
def relNextAfter : List Char → Bool
  | ';' :: rest => relNextPat.isPrefixOf (rest.dropWhile isPySpace)
  | _ => false

/-- Attempt the regex match anchored at the current position. -/
def tryMatchAt : List Char → Option (List Char)
  | [] => none
  | c :: cs =>
    if c = '<' then
      match splitAtGt cs with
      | some (cap, rest) =>
          if cap.isEmpty then none
          else if relNextAfter rest then some cap else none
      | none => none
    else none

/-- Model of `re.search`: try the anchored match at each position, left to right. -/
def reSearch : List Char → Option (List Char)
  | [] => none
  | c :: cs =>
    match tryMatchAt (c :: cs) with
    | some r => some r
    | none => reSearch cs

/-- Python `str.split(",")`. -/
def splitOnComma : List Char → List (List Char)
  | [] => [[]]
  | c :: cs =>
    if c = ',' then [] :: splitOnComma cs
    else
      match splitOnComma cs with
      | [] => [[c]]
      | p :: ps => (c :: p) :: ps

/-- The `for part in link_header.split(",")` loop body: return the first
part on which the regex finds a match. -/
def findNextInParts : List (List Char) → Option (List Char)
  | [] => none
  | p :: ps =>
    match reSearch p with
    | some r => some r
    | none => findNextInParts ps

/-- Function `parse_next_link` (lines 29-37): `None` on an empty header, else the
first regex capture over the comma-separated parts. -/
def parse_next_link (link_header : List Char) : Option (List Char) :=
  if link_header = [] then none
  else findNextInParts (splitOnComma link_header)

/-! Well-formed Link headers, rendered from (url, rel) segment pairs as
the upstream server emits them: `<url>; rel="name"` joined by `", "`. -/

/-- Render one `<url>; rel="name"` segment. -/
def renderSeg (seg : List Char × List Char) : List Char :=
  '<' :: (seg.1 ++ '>' :: ';' :: ' ' :: (relEqQuote ++ (seg.2 ++ ['"'])))

/-- Render a whole Link header from its segments. -/
def renderHeader : List (List Char × List Char) → List Char
  | [] => []
  | [s] => renderSeg s
  | s :: rest => renderSeg s ++ ',' :: ' ' :: renderHeader rest

/-- A URL that a server can actually place in a Link header segment:
nonempty and free of the segment/list delimiters. -/
def goodUrl (u : List Char) : Prop :=
  u ≠ [] ∧ '>' ∉ u ∧ '<' ∉ u ∧ ',' ∉ u

/-- A relation name free of the delimiters. -/
def goodRel (r : List Char) : Prop :=
  '"' ∉ r ∧ ',' ∉ r ∧ '<' ∉ r ∧ '>' ∉ r

instance (u : List Char) : Decidable (goodUrl u) := by
  unfold goodUrl; infer_instance

instance (r : List Char) : Decidable (goodRel r) := by
  unfold goodRel; infer_instance

lemma splitAtGt_append (u t : List Char) (hu : '>' ∉ u) :
    splitAtGt (u ++ '>' :: t) = some (u, t) := by
  induction u with
  | nil => simp [splitAtGt]
  | cons c cs ih =>
      have hc : c ≠ '>' := fun h => hu (h ▸ List.mem_cons_self c cs)
      have hcs : '>' ∉ cs := fun h => hu (List.mem_cons_of_mem c h)
      simp [splitAtGt, hc, ih hcs]

lemma tryMatchAt_not_lt (c : Char) (cs : List Char) (hc : c ≠ '<') :
    tryMatchAt (c :: cs) = none := by
  simp [tryMatchAt, hc]

lemma reSearch_cons_not_lt (c : Char) (cs : List Char) (hc : c ≠ '<') :
    reSearch (c :: cs) = reSearch cs := by
  rw [reSearch, tryMatchAt_not_lt c cs hc]

lemma reSearch_no_lt (l : List Char) (h : '<' ∉ l) : reSearch l = none := by
  induction l with
  | nil => rfl
  | cons c cs ih =>
      have hc : c ≠ '<' := fun hch => h (hch ▸ List.mem_cons_self c cs)
      rw [reSearch_cons_not_lt c cs hc]
      exact ih fun hm => h (List.mem_cons_of_mem c hm)

lemma isPrefixOf_append_same (a b c : List Char) :
    (a ++ b).isPrefixOf (a ++ c) = b.isPrefixOf c := by
  induction a with
  | nil => rfl
  | cons x xs ih => simp [List.isPrefixOf, ih]

lemma quoted_isPrefixOf (p r : List Char) (hp : '"' ∉ p) (hr : '"' ∉ r) :
    ((p ++ ['"']).isPrefixOf (r ++ ['"'])) = decide (p = r) := by
  induction p generalizing r with
  | nil =>
      cases r with
      | nil => rfl
      | cons c rs =>
          have hc : c ≠ '"' := fun h => hr (h ▸ List.mem_cons_self c rs)
          have hc2 : ¬(('"' : Char) = c) := fun h => hc h.symm
          simp [List.isPrefixOf, hc2]
  | cons a ps ih =>
      have ha : a ≠ '"' := fun h => hp (h ▸ List.mem_cons_self a ps)
      have hps : '"' ∉ ps := fun h => hp (List.mem_cons_of_mem a h)
      cases r with
      | nil => simp [List.isPrefixOf, ha]
      | cons c rs =>
          have hrs : '"' ∉ rs := fun h => hr (List.mem_cons_of_mem c h)
          have hih := ih rs hps hrs
          by_cases hac : a = c
          · subst hac
            by_cases hpr : ps = rs <;> simp [List.isPrefixOf, hih, hpr]
          · simp [List.isPrefixOf, hac]

lemma reSearch_renderSeg (u r : List Char) (hu : goodUrl u) (hr : goodRel r) :
    reSearch (renderSeg (u, r)) = if r = nextLit then some u else none := by
  obtain ⟨hne, hgt, hlt, _⟩ := hu
  obtain ⟨hq, _, hrlt, hrgt⟩ := hr
  have hsplit := splitAtGt_append u
    (';' :: ' ' :: (relEqQuote ++ (r ++ ['"']))) hgt
  have hdrop : (' ' :: (relEqQuote ++ (r ++ ['"']))).dropWhile isPySpace
      = relEqQuote ++ (r ++ ['"']) := by
    simp [List.dropWhile, isPySpace, relEqQuote]
  have hafter : relNextAfter (';' :: ' ' :: (relEqQuote ++ (r ++ ['"'])))
      = decide (nextLit = r) := by
    rw [relNextAfter, hdrop, relNextPat, List.append_assoc,
      isPrefixOf_append_same]
    exact quoted_isPrefixOf nextLit r (by decide) hq
  have hcons : renderSeg (u, r)
      = '<' :: (u ++ '>' :: ';' :: ' ' :: (relEqQuote ++ (r ++ ['"']))) := rfl
  have hmatch : tryMatchAt (renderSeg (u, r))
      = if r = nextLit then some u else none := by
    rw [hcons]
    simp only [tryMatchAt, if_pos rfl, hsplit, hafter]
    by_cases hrn : r = nextLit
    · subst hrn
      simp [List.isEmpty_iff, hne]
    · have hrn2 : (decide (nextLit = r)) = false :=
        decide_eq_false fun h => hrn h.symm
      rw [hrn2]
      simp [hrn, List.isEmpty_iff, hne]
  rw [hcons] at hmatch ⊢
  rw [reSearch, hmatch]
  by_cases hrn : r = nextLit
  · simp [hrn]
  · rw [if_neg hrn]
    have hnolt : '<' ∉ u ++ '>' :: ';' :: ' ' :: (relEqQuote ++ (r ++ ['"'])) := by
      intro hmem
      rcases List.mem_append.mp hmem with h | h
      · exact hlt h
      rcases List.mem_cons.mp h with h1 | h
      · exact absurd h1 (by decide)
      rcases List.mem_cons.mp h with h1 | h
      · exact absurd h1 (by decide)
      rcases List.mem_cons.mp h with h1 | h
      · exact absurd h1 (by decide)
      rcases List.mem_append.mp h with h1 | h
      · exact absurd h1 (by decide)
      rcases List.mem_append.mp h with h1 | h
      · exact hrlt h1
      · exact absurd h (by decide)
    rw [reSearch_no_lt _ hnolt]

lemma splitOnComma_ne_nil (l : List Char) : splitOnComma l ≠ [] := by
  cases l with
  | nil => simp [splitOnComma]
  | cons c cs =>
      rw [splitOnComma]
      by_cases hc : c = ','
      · simp [hc]
      · simp only [hc, if_false]
        cases h : splitOnComma cs with
        | nil => simp
        | cons p ps => simp

lemma splitOnComma_no_comma (a : List Char) (h : ',' ∉ a) :
    splitOnComma a = [a] := by
  induction a with
  | nil => rfl
  | cons c cs ih =>
      have hc : c ≠ ',' := fun hch => h (hch ▸ List.mem_cons_self c cs)
      have hcs : ',' ∉ cs := fun hm => h (List.mem_cons_of_mem c hm)
      rw [splitOnComma, if_neg hc, ih hcs]

lemma splitOnComma_append (a b : List Char) (h : ',' ∉ a) :
    splitOnComma (a ++ ',' :: b) = a :: splitOnComma b := by
  induction a with
  | nil => simp [splitOnComma]
  | cons c cs ih =>
      have hc : c ≠ ',' := fun hch => h (hch ▸ List.mem_cons_self c cs)
      have hcs : ',' ∉ cs := fun hm => h (List.mem_cons_of_mem c hm)
      rw [List.cons_append, splitOnComma, if_neg hc, ih hcs]

lemma findNext_space_cons (x : List Char) :
    findNextInParts (splitOnComma (' ' :: x))
      = findNextInParts (splitOnComma x) := by
  rw [splitOnComma]
  simp only [if_neg (by decide : ¬(' ' = ','))]
  cases h : splitOnComma x with
  | nil => exact absurd h (splitOnComma_ne_nil x)
  | cons p ps =>
      rw [findNextInParts, findNextInParts,
        reSearch_cons_not_lt ' ' p (by decide)]

lemma comma_not_mem_renderSeg (u r : List Char)
    (hu : goodUrl u) (hr : goodRel r) : ',' ∉ renderSeg (u, r) := by
  obtain ⟨_, _, _, huc⟩ := hu
  obtain ⟨_, hrc, _, _⟩ := hr
  intro hmem
  rw [renderSeg] at hmem
  rcases List.mem_cons.mp hmem with h1 | h
  · exact absurd h1 (by decide)
  rcases List.mem_append.mp h with h1 | h
  · exact huc h1
  rcases List.mem_cons.mp h with h1 | h
  · exact absurd h1 (by decide)
  rcases List.mem_cons.mp h with h1 | h
  · exact absurd h1 (by decide)
  rcases List.mem_cons.mp h with h1 | h
  · exact absurd h1 (by decide)
  rcases List.mem_append.mp h with h1 | h
  · exact absurd h1 (by decide)
  rcases List.mem_append.mp h with h1 | h
  · exact hrc h1
  · exact absurd h (by decide)

lemma findNextInParts_cons_some (p : List Char) (ps : List (List Char))
    (r : List Char) (h : reSearch p = some r) :
    findNextInParts (p :: ps) = some r := by
  rw [findNextInParts, h]

lemma findNextInParts_cons_none (p : List Char) (ps : List (List Char))
    (h : reSearch p = none) :
    findNextInParts (p :: ps) = findNextInParts ps := by
  rw [findNextInParts, h]

/-- Claim C3: `parse_next_link` returns `None` on the empty header, and on
every header rendered from delimiter-free `(url, rel)` segments it returns
exactly the URL of the first segment whose relation is `next`, `None` when
no segment has that relation; the parser is a total function, so it never
fails on any input string. -/
theorem C3_next_link_extraction :
    parse_next_link [] = none ∧
    ∀ segs : List (List Char × List Char),
      (∀ s ∈ segs, goodUrl s.1 ∧ goodRel s.2) →
      parse_next_link (renderHeader segs)
        = (segs.find? fun s => decide (s.2 = nextLit)).map Prod.fst := by
  refine ⟨rfl, ?_⟩
  intro segs
  induction segs with
  | nil => intro _; rfl
  | cons s rest ih =>
      intro hgood
      obtain ⟨u, r⟩ := s
      obtain ⟨hu0, hr0⟩ := hgood (u, r) (List.mem_cons_self _ rest)
      have hu : goodUrl u := hu0
      have hr : goodRel r := hr0
      have hcomma : ',' ∉ renderSeg (u, r) := comma_not_mem_renderSeg u r hu hr
      have hnn : renderSeg (u, r) ≠ [] := by rw [renderSeg]; simp
      cases rest with
      | nil =>
          have hrh : renderHeader [(u, r)] = renderSeg (u, r) := rfl
          rw [hrh, parse_next_link, if_neg hnn,
            splitOnComma_no_comma _ hcomma]
          by_cases hrn : r = nextLit
          · rw [findNextInParts_cons_some _ _ u
              (by rw [reSearch_renderSeg u r hu hr, if_pos hrn])]
            simp [List.find?, hrn]
          · rw [findNextInParts_cons_none _ _
              (by rw [reSearch_renderSeg u r hu hr, if_neg hrn]),
              findNextInParts]
            simp [List.find?, hrn]
      | cons t rest2 =>
          have hih := ih fun x hx => hgood x (List.mem_cons_of_mem _ hx)
          have hrh : renderHeader ((u, r) :: t :: rest2)
              = renderSeg (u, r) ++ ',' :: ' ' :: renderHeader (t :: rest2) := rfl
          have hnn2 : renderSeg (u, r) ++ ',' :: ' ' :: renderHeader (t :: rest2) ≠ [] := by
            rw [renderSeg]; simp
          rw [hrh, parse_next_link, if_neg hnn2,
            splitOnComma_append _ _ hcomma]
          by_cases hrn : r = nextLit
          · rw [findNextInParts_cons_some _ _ u
              (by rw [reSearch_renderSeg u r hu hr, if_pos hrn])]
            simp [List.find?, hrn]
          · rw [findNextInParts_cons_none _ _
              (by rw [reSearch_renderSeg u r hu hr, if_neg hrn]),
              findNext_space_cons]
            have hne2 : renderHeader (t :: rest2) ≠ [] := by
              cases rest2 <;> simp [renderHeader, renderSeg]
            rw [parse_next_link, if_neg hne2] at hih
            rw [hih]
            simp [List.find?, hrn]

/-! ## JSON values and pagination (lines 76-92) -/

/-- A JSON value, as `r.json()` produces it. -/
inductive Json where
  | null
  | bool (b : Bool)
  | num (n : Int)
  | str (s : String)
  | arr (elems : List Json)
  | obj (fields : List (String × Json))

/-- Query parameters, as the `params` dict handed to `requests`. -/
abbrev Params := List (String × String)

/-- Item extraction of line 90:
`items = data if items_key is None else data.get(items_key, [])`,
over the shapes the endpoints return (a bare array when `items_key` is
unset; an object whose `items_key` entry, when present, is an array --
`.get` defaulting to the empty list when the key is absent). -/
def pageItems (data : Json) (items_key : Option String) : List Json :=
  match items_key with
  | none =>
    match data with
    | .arr xs => xs
    | _ => []
  | some k =>
    match data with
    | .obj fs =>
      match fs.lookup k with
      | some (.arr xs) => xs
      | some _ => []
      | none => []
    | _ => []

/-- One fetched page: its JSON body and the raw `Link` response header. -/
structure Page where
  body : Json
  link : List Char

/-- Whether the page's `Link` header carries a `rel="next"` URL. -/
def hasNext (p : Page) : Bool := (parse_next_link p.link).isSome

/-- One run of the `paginate` generator (lines 76-92) over a simulated
page sequence: each loop iteration fetches the next page (sending the
caller's `params` only when `first` is still true, `None` afterwards),
yields that page's items, and continues while `parse_next_link` finds a
next URL.  Returns the yielded items and the per-request params log. -/
def paginateSim : List Page → Option Params → Option String → Bool →
    List Json × List (Option Params)
  | [], _, _, _ => ([], [])
  | p :: rest, params, items_key, first =>
    let sent := if first then params else none
    let items := pageItems p.body items_key
    match parse_next_link p.link with
    | none => (items, [sent])
    | some _ =>
      let next := paginateSim rest params items_key false
      (items ++ next.1, sent :: next.2)

/-- A well-formed simulated page sequence: every page before the last
advertises a next page and the last one does not, so the cursor chain
visits exactly these pages in order. -/
def chainOk : List Page → Bool
  | [] => false
  | [p] => !(hasNext p)
  | p :: rest => hasNext p && chainOk rest

lemma parse_of_not_hasNext (p : Page) (h : hasNext p = false) :
    parse_next_link p.link = none := by
  rw [hasNext] at h
  cases hp : parse_next_link p.link with
  | none => rfl
  | some v => rw [hp] at h; simp at h

lemma paginateSim_false (pages : List Page) :
    ∀ params key, chainOk pages = true →
      paginateSim pages params key false
        = ((pages.map fun p => pageItems p.body key).flatten,
           List.replicate pages.length none) := by
  induction pages with
  | nil => intro params key h; simp [chainOk] at h
  | cons p rest ih =>
      intro params key h
      cases rest with
      | nil =>
          have hnx : hasNext p = false := by
            have heq : chainOk [p] = !(hasNext p) := rfl
            rw [heq] at h
            simpa using h
          simp [paginateSim, parse_of_not_hasNext p hnx]
      | cons q rest2 =>
          have heq : chainOk (p :: q :: rest2)
              = (hasNext p && chainOk (q :: rest2)) := rfl
          rw [heq, Bool.and_eq_true] at h
          obtain ⟨hnx, hck⟩ := h
          obtain ⟨nxt, hparse⟩ := Option.isSome_iff_exists.mp
            (by rw [hasNext] at hnx; exact hnx)
          rw [paginateSim, hparse]
          rw [ih params key hck]
          simp [List.replicate_succ]

/-- Claim C2: over every well-formed simulated page sequence, `paginate`
yields exactly the concatenation of each page's items (per `pageItems`)
in page order, sends the supplied params only on the first fetch and
`None` on every later fetch, and performs exactly one fetch per page,
stopping at the page whose headers lack a next link. -/
theorem C2_pagination (pages : List Page) (params : Option Params)
    (key : Option String) (h : chainOk pages = true) :
    paginateSim pages params key true
      = ((pages.map fun p => pageItems p.body key).flatten,
         params :: List.replicate (pages.length - 1) none) := by
  cases pages with
  | nil => simp [chainOk] at h
  | cons p rest =>
      cases rest with
      | nil =>
          have hnx : hasNext p = false := by
            have heq : chainOk [p] = !(hasNext p) := rfl
            rw [heq] at h
            simpa using h
          simp [paginateSim, parse_of_not_hasNext p hnx]
      | cons q rest2 =>
          have heq : chainOk (p :: q :: rest2)
              = (hasNext p && chainOk (q :: rest2)) := rfl
          rw [heq, Bool.and_eq_true] at h
          obtain ⟨hnx, hck⟩ := h
          obtain ⟨nxt, hparse⟩ := Option.isSome_iff_exists.mp
            (by rw [hasNext] at hnx; exact hnx)
          rw [paginateSim, hparse]
          rw [paginateSim_false _ params key hck]
          simp

/-- Concrete instance of Claim C2: a three-page search-style response
(`items` key) with a trailing page lacking a next link. -/
theorem C2_pagination_witness :
    paginateSim
      [⟨.obj [("items", .arr [.num 1, .num 2])],
          renderHeader [(['u', '2'], nextLit)]⟩,
       ⟨.obj [("items", .arr [.num 3])],
          renderHeader [(['u', '3'], nextLit)]⟩,
       ⟨.obj [("total_count", .num 4)], []⟩]
      (some [("q", "x"), ("per_page", "100")]) (some "items") true
      = ([.num 1, .num 2, .num 3],
         [some [("q", "x"), ("per_page", "100")], none, none]) := by
  rw [C2_pagination _ _ _ (by rfl)]
  rfl

/-- Concrete instance of Claim C3: a `prev` segment followed by a `next`
segment resolves to the `next` segment's URL. -/
theorem C3_link_header_witness :
    parse_next_link (renderHeader
      [(['h', 't', 't', 'p', 'A'], ['p', 'r', 'e', 'v']),
       (['h', 't', 't', 'p', 'B'], nextLit)])
      = some ['h', 't', 't', 'p', 'B'] := by
  rw [C3_next_link_extraction.2 _ (by decide)]
  rfl

/-! ## The GET loop with retry (`GitHubClient._request`, lines 52-74) -/

/-- One simulated outcome of `self.s.get(url, params=params)`: either a
`requests.RequestException` or an HTTP response with its status code, the
`X-RateLimit-Remaining` and `X-RateLimit-Reset` headers, the `Link`
header, and the body. -/
inductive SimResp where
  | netErr
  | http (status : Nat) (remaining : Option String) (reset : Option Int)
      (link : List Char) (body : Json)

/-- Model of `requests.Response.raise_for_status`: it raises `HTTPError` exactly for
status codes 400-599; 1xx/3xx responses pass through. -/
def raisesForStatus (status : Nat) : Bool :=
  decide (400 ≤ status) && decide (status < 600)

/-- What one iteration of the `while True` loop (lines 59-74) does with
the response it received at wall-clock time `now`. -/
inductive StepOut where
  | done
  | fail (status : Nat)
  | sleepRetry (d : Int)
deriving DecidableEq

/-- One iteration: a network error sleeps 5 seconds and retries (lines
62-65); a 403 whose `X-RateLimit-Remaining` header is the string `"0"`
sleeps `max(0, reset - now + 5)` seconds and retries (lines 67-72, the
reset header defaulting to 0); otherwise `raise_for_status` either raises
or the response is returned (lines 73-74). -/
def stepRequest (now : Int) : SimResp → StepOut
  | .netErr => .sleepRetry 5
  | .http status remaining reset _ _ =>
    if status = 403 ∧ remaining = some "0" then
      .sleepRetry (max 0 (reset.getD 0 - now + 5))
    else if raisesForStatus status then .fail status
    else .done

/-- Result of running the loop against a queue of simulated responses:
the wall-clock times at which each request went out, and how the loop
ended (returning a response, raising an HTTP-status error, or running
out of scripted responses while still retrying). -/
inductive ReqResult where
  | ok (sendTimes : List Int) (resp : SimResp)
  | httpError (status : Nat) (sendTimes : List Int)
  | exhausted (sendTimes : List Int)

/-- Record one more (earlier) request time on a loop outcome. -/
def prependTime (t : Int) : ReqResult → ReqResult
  | .ok ts r => .ok (t :: ts) r
  | .httpError s ts => .httpError s (t :: ts)
  | .exhausted ts => .exhausted (t :: ts)

/-- Whether the loop outcome is an HTTP-status error. -/
def ReqResult.isHttpErr : ReqResult → Bool
  | .httpError _ _ => true
  | _ => false

/-- The `while True` loop of `_request`: each iteration consumes the next
scripted response; a sleep of `d` seconds advances the clock by `d`
before the retry goes out. -/
def runRequest (now : Int) : List SimResp → ReqResult
  | [] => .exhausted []
  | r :: rest =>
    match stepRequest now r with
    | .done => .ok [now] r
    | .fail s => .httpError s [now]
    | .sleepRetry d => prependTime now (runRequest (now + d) rest)

/-- Claim C5: on a 403 whose rate-limit-remaining header equals zero, the
client computes the sleep duration `max(0, reset - now + 5)`, sleeps
exactly that long, retries the same request, and the retried request
goes out no earlier than `reset + 5`. -/
theorem C5_rate_limit_handling (now reset : Int) (link : List Char)
    (body : Json) (rest : List SimResp) :
    stepRequest now (.http 403 (some "0") (some reset) link body)
      = .sleepRetry (max 0 (reset - now + 5)) ∧
    runRequest now (.http 403 (some "0") (some reset) link body :: rest)
      = prependTime now (runRequest (now + max 0 (reset - now + 5)) rest) ∧
    reset + 5 ≤ now + max 0 (reset - now + 5) := by
  have hstep : stepRequest now (.http 403 (some "0") (some reset) link body)
      = .sleepRetry (max 0 (reset - now + 5)) := by
    simp [stepRequest]
  refine ⟨hstep, ?_, ?_⟩
  · rw [runRequest, hstep]
  · have h := le_max_right (0 : Int) (reset - now + 5)
    linarith

/-! ## Commit normalization (lines 254-271) -/

/-- Python truthiness of a JSON value. -/
def jsonTruthy : Json → Bool
  | .null => false
  | .bool b => b
  | .num n => !(decide (n = 0))
  | .str s => !(decide (s = ""))
  | .arr xs => !(xs.isEmpty)
  | .obj fs => !(fs.isEmpty)

/-- Python `d.get(k)`: the value under the key, absent keys giving `None`. -/
def jGet (j : Json) (k : String) : Option Json :=
  match j with
  | .obj fs => fs.lookup k
  | _ => none

/-- The guard idioms `item.get(k, {}) or {}` and `obj.get(k) or {}`:
both collapse an absent or falsy value to the empty dict. -/
def pyGetOrEmptyObj (j : Json) (k : String) : Json :=
  match jGet j k with
  | some v => if jsonTruthy v then v else .obj []
  | none => .obj []

/-- Reading a string-or-null JSON field into an optional string. -/
def jOptStr : Option Json → Option String
  | some (.str s) => some s
  | _ => none

/-- The idiom `(obj.get(k) or "")` for a string-or-null value. -/
def pyOrEmptyStr (v : Option Json) : String :=
  match v with
  | some (.str s) => s
  | _ => ""

/-- Characters `str.splitlines` treats as line boundaries (ASCII plus the
Unicode line/paragraph separators). -/
def isLineBreak (c : Char) : Bool :=
  c = '\n' || c = '\r' || c = '\x0b' || c = '\x0c' ||
    c = '\x1c' || c = '\x1d' || c = '\x1e' || c = '\x85' ||
    c = '\u2028' || c = '\u2029'

/-- Worker for `splitlines`: a trailing line break opens no empty final
line, and `\r\n` counts as a single break. -/
def splitlinesGo : List Char → List Char → List (List Char)
  | [], acc => [acc.reverse]
  | '\r' :: '\n' :: rest, acc =>
    acc.reverse :: (match rest with
      | [] => []
      | _ => splitlinesGo rest [])
  | c :: rest, acc =>
    if isLineBreak c then
      acc.reverse :: (match rest with
        | [] => []
        | _ => splitlinesGo rest [])
    else splitlinesGo rest (c :: acc)

/-- Python `str.splitlines`; in particular `"".splitlines() == []`. -/
def splitlines (s : String) : List String :=
  match s.toList with
  | [] => []
  | cs => (splitlinesGo cs []).map fun l => String.mk l

/-- The commit normalization of lines 259-270, building the record from
one `/search/commits` item.  The `[0]` index into
`(commit.get("message") or "").splitlines()` raises `IndexError` when the
line list is empty -- modelled as `none`; every other absent field becomes
a `null` record field. -/
def normalizeCommit (org : String) (item : Json) : Option Rec :=
  let sha := jOptStr (jGet item "sha")
  let commit := pyGetOrEmptyObj item "commit"
  let author := pyGetOrEmptyObj commit "author"
  match splitlines (pyOrEmptyStr (jGet commit "message")) with
  | [] => none
  | firstLine :: _ =>
    some { kind := "commits", org := org,
           repo := jOptStr (jGet (pyGetOrEmptyObj item "repository") "full_name"),
           sha := sha,
           message := some firstLine,
           url := jOptStr (jGet item "html_url"),
           author_date := jOptStr (jGet author "date") }

/-- Claim C4 evaluated at its failing inputs: a commit item whose commit
object (and hence message) is absent, and one whose message is the empty
string, both make the normalization raise `IndexError` (the `[0]` on
`"".splitlines() == []`) instead of producing a record with null fields;
a commit item with a nonempty message but all sub-objects missing does
normalize, with null fields. -/
theorem C4_commit_normalization_crash :
    normalizeCommit "acme" (Json.obj []) = none ∧
    normalizeCommit "acme"
      (Json.obj [("sha", Json.str "abc123"),
        ("commit", Json.obj [("message", Json.str "")]),
        ("html_url", Json.str "h")])
      = none ∧
    normalizeCommit "acme"
      (Json.obj [("commit", Json.obj [("message", Json.str "fix: a\nbody")])])
      = some { kind := "commits", org := "acme", repo := none, sha := none,
               message := some "fix: a", url := none, author_date := none } := by
  exact ⟨rfl, rfl, rfl⟩

/-! ## Calendar dates (`datetime.date`), lines 98-105 and 150-154 -/

/-- A proleptic Gregorian calendar date, as `datetime.date`. -/
structure Date where
  year : Nat
  month : Nat
  day : Nat
deriving DecidableEq, Repr

/-- Gregorian leap-year rule. -/
def isLeapYear (y : Nat) : Bool :=
  (y % 4 == 0 && y % 100 != 0) || y % 400 == 0

/-- Days in a month of a given year. -/
def daysInMonth (y m : Nat) : Nat :=
  if m = 2 then (if isLeapYear y then 29 else 28)
  else if m = 4 ∨ m = 6 ∨ m = 9 ∨ m = 11 then 30
  else 31

/-- Days in the months strictly before month `m` of year `y`. -/
def daysBeforeMonth (y m : Nat) : Nat :=
  ((List.range (m - 1)).map fun i => daysInMonth y (i + 1)).sum

/-- Model of `datetime.date.toordinal`: day count with 0001-01-01 as day 1. -/
def toOrdinal (d : Date) : Nat :=
  365 * (d.year - 1) + (d.year - 1) / 4 - (d.year - 1) / 100
    + (d.year - 1) / 400 + daysBeforeMonth d.year d.month + d.day

/-- Locate the year containing ordinal day `n`, scanning from year `y`
with fuel; returns the year and the 1-based day offset inside it. -/
def findYear : Nat → Nat → Nat → Nat × Nat
  | 0, y, n => (y, n)
  | fuel + 1, y, n =>
    let diy := if isLeapYear y then 366 else 365
    if n ≤ diy then (y, n) else findYear fuel (y + 1) (n - diy)

/-- Locate the month containing day offset `n` of year `y`. -/
def findMonth : Nat → Nat → Nat → Nat → Nat × Nat
  | 0, _, m, n => (m, n)
  | fuel + 1, y, m, n =>
    let dim := daysInMonth y m
    if n ≤ dim then (m, n) else findMonth fuel y (m + 1) (n - dim)

/-- Model of `datetime.date.fromordinal`. -/
def fromOrdinal (n : Nat) : Date :=
  let yr := findYear n 1 n
  let mr := findMonth 12 yr.1 1 yr.2
  ⟨yr.1, mr.1, mr.2⟩

/-- Python `d - datetime.timedelta(days=k)`. -/
def subDays (d : Date) (k : Nat) : Date :=
  fromOrdinal (toOrdinal d - k)

/-- Zero-pad a number to `w` digits. -/
def padNum (w n : Nat) : String :=
  let s := toString n
  if s.length < w then String.mk (List.replicate (w - s.length) '0') ++ s
  else s

/-- Function `iso_date` (lines 98-99): `d.strftime("%Y-%m-%d")`. -/
def iso_date (d : Date) : String :=
  padNum 4 d.year ++ "-" ++ padNum 2 d.month ++ "-" ++ padNum 2 d.day

/-- Function `default_rolling_year` (lines 102-105): the trailing 365 days. -/
def default_rolling_year (today : Date) : Date × Date :=
  (subDays today 365, today)

/-- Numeric value of a digit character. -/
def digitVal (c : Char) : Nat := c.toNat - '0'.toNat

/-- Model of `datetime.date.fromisoformat` on the documented `YYYY-MM-DD` shape:
`none` models the `ValueError` raised on unparsable input (wrong shape,
non-digits, or no such calendar date). -/
def parseIsoDate (s : String) : Option Date :=
  match s.toList with
  | [y1, y2, y3, y4, '-', m1, m2, '-', d1, d2] =>
    if y1.isDigit && y2.isDigit && y3.isDigit && y4.isDigit &&
        m1.isDigit && m2.isDigit && d1.isDigit && d2.isDigit then
      let y := ((digitVal y1 * 10 + digitVal y2) * 10 + digitVal y3) * 10
        + digitVal y4
      let m := digitVal m1 * 10 + digitVal m2
      let d := digitVal d1 * 10 + digitVal d2
      if 1 ≤ y ∧ y ≤ 9999 ∧ 1 ≤ m ∧ m ≤ 12 ∧ 1 ≤ d ∧ d ≤ daysInMonth y m then
        some ⟨y, m, d⟩
      else none
    else none
  | _ => none

/-- Python truthiness of an optional string (`argparse` yields `None` for
an argument that was not passed). -/
def truthyStr : Option String → Bool
  | none => false
  | some s => !(decide (s = ""))

/-- Lines 150-154: parse both endpoints only when both are truthy,
otherwise fall back to the rolling year; a parse failure raises
(`.error`). -/
def resolveDateRange (today : Date) (date_from date_to : Option String) :
    Except Unit (Date × Date) :=
  if truthyStr date_from && truthyStr date_to then
    match parseIsoDate (date_from.getD ""), parseIsoDate (date_to.getD "") with
    | some a, some b => Except.ok (a, b)
    | _, _ => Except.error ()
  else Except.ok (default_rolling_year today)

/-- Claim C9: exactly when both date arguments are supplied they are
parsed as ISO calendar dates -- both parses succeeding gives that pair,
any parse failure raises a format error -- and in every other case the
range defaults to `[today - 365 days, today]`. -/
theorem C9_date_range_resolution :
    (∀ today a b, ¬(truthyStr a = true ∧ truthyStr b = true) →
      resolveDateRange today a b = Except.ok (subDays today 365, today)) ∧
    (∀ today (sa sb : String) da db, sa ≠ "" → sb ≠ "" →
      parseIsoDate sa = some da → parseIsoDate sb = some db →
      resolveDateRange today (some sa) (some sb) = Except.ok (da, db)) ∧
    (∀ today (sa sb : String), sa ≠ "" → sb ≠ "" →
      (parseIsoDate sa = none ∨ parseIsoDate sb = none) →
      resolveDateRange today (some sa) (some sb) = Except.error ()) := by
  refine ⟨?_, ?_, ?_⟩
  · intro today a b h
    have hc : (truthyStr a && truthyStr b) = false := by
      cases ha : truthyStr a <;> cases hb : truthyStr b <;> simp_all
    simp only [resolveDateRange, hc, Bool.false_eq_true, if_false,
      default_rolling_year]
  · intro today sa sb da db hsa hsb hpa hpb
    have hc : (truthyStr (some sa) && truthyStr (some sb)) = true := by
      simp [truthyStr, hsa, hsb]
    simp only [resolveDateRange, hc, if_true, Option.getD_some]
    rw [hpa, hpb]
  · intro today sa sb hsa hsb h
    have hc : (truthyStr (some sa) && truthyStr (some sb)) = true := by
      simp [truthyStr, hsa, hsb]
    simp only [resolveDateRange, hc, if_true, Option.getD_some]
    rcases h with h | h
    · rw [h]
    · rw [h]
      cases ha : parseIsoDate sa <;> rfl

/-- Concrete instance of Claim C9: defaulting with one endpoint missing,
a successful two-endpoint parse, and a malformed endpoint. -/
theorem C9_date_range_witness :
    resolveDateRange ⟨2024, 6, 1⟩ (some "2024-01-01") none
      = Except.ok (subDays ⟨2024, 6, 1⟩ 365, ⟨2024, 6, 1⟩) ∧
    resolveDateRange ⟨2024, 6, 1⟩ (some "2024-01-01") (some "2024-02-03")
      = Except.ok (⟨2024, 1, 1⟩, ⟨2024, 2, 3⟩) ∧
    resolveDateRange ⟨2024, 6, 1⟩ (some "bogus") (some "2024-01-01")
      = Except.error () :=
  ⟨C9_date_range_resolution.1 ⟨2024, 6, 1⟩ (some "2024-01-01") none
      (by decide),
   C9_date_range_resolution.2.1 ⟨2024, 6, 1⟩ "2024-01-01" "2024-02-03"
      ⟨2024, 1, 1⟩ ⟨2024, 2, 3⟩ (by decide) (by decide) (by decide) (by decide),
   C9_date_range_resolution.2.2 ⟨2024, 6, 1⟩ "bogus" "2024-01-01"
      (by decide) (by decide) (Or.inl (by decide))⟩

/-! ## Organization filtering (lines 163-169) -/

/-- Lines 166-169: keep membership order, dropping organizations not in
the allow-list; `if args.org:` skips the filter when the allow-list is
absent (or, unreachably via argparse, empty). -/
def resolveOrgs (memberships : List String) (allow : Option (List String)) :
    List String :=
  match allow with
  | none => memberships
  | some ws =>
    if ws.isEmpty then memberships
    else memberships.filter fun o => ws.contains o

/-- Claim C7: with an allow-list supplied, the resolved organization set
is the order-preserving intersection of the membership listing with the
allow-list: a sublist of the membership listing (order preserved),
containing exactly the organizations present in both lists. -/
theorem C7_org_filtering (memberships ws : List String) (h : ws ≠ []) :
    resolveOrgs memberships (some ws)
        = memberships.filter (fun o => ws.contains o) ∧
    List.Sublist (resolveOrgs memberships (some ws)) memberships ∧
    ∀ o, o ∈ resolveOrgs memberships (some ws) ↔ (o ∈ memberships ∧ o ∈ ws) := by
  have he : resolveOrgs memberships (some ws)
      = memberships.filter fun o => ws.contains o := by
    rw [resolveOrgs]
    rw [if_neg (by simpa [List.isEmpty_iff] using h)]
  refine ⟨he, ?_, ?_⟩
  · rw [he]
    exact List.filter_sublist _
  · intro o
    rw [he]
    simp [List.mem_filter]

/-- Concrete instance of Claim C7: membership `[A, B, C]` with allow-list
`[B, D]` resolves to exactly `[B]`. -/
theorem C7_org_filtering_witness :
    resolveOrgs ["A", "B", "C"] (some ["B", "D"]) = ["B"] :=
  (C7_org_filtering ["A", "B", "C"] ["B", "D"] (by decide)).1.trans (by decide)

/-! ## The control-flow skeleton of `main` (lines 114-306) -/

/-- The parsed CLI arguments (lines 124-143, with argparse defaults). -/
structure Args where
  date_from : Option String := none
  date_to : Option String := none
  org : Option (List String) := none
  out : String := "github_activity"

/-- The simulated environment of one run: the authenticated login, the
organization logins from the membership listing, the outcome of the whole
per-organization fetch loop (the normalized records in fetch order, or
the status of the HTTP error that aborted it), and today's date. -/
structure World where
  login : String
  memberships : List String
  fetched : Except Nat (List Rec)
  today : Date

/-- An exception propagating out of `main`. -/
inductive MainErr where
  | dateFormat
  | httpStatus (status : Nat)
deriving DecidableEq

/-- How the process ends: `sys.exit`-style return code or an uncaught
exception. -/
inductive MainOutcome where
  | exited (code : Int)
  | raised (e : MainErr)
deriving DecidableEq

/-- Observable outcome of a run: how it ended, which output files were
written, whether any network request went out, and the final results. -/
structure MainResult where
  outcome : MainOutcome
  files : List String
  netCalls : Bool
  records : List Rec
deriving DecidableEq

/-- Output file name `f"{args.out}_{iso_date(d_from)}_{iso_date(d_to)}"`
plus extension (lines 275, 280). -/
def outName (out : String) (d_from d_to : Date) (ext : String) : String :=
  out ++ "_" ++ iso_date d_from ++ "_" ++ iso_date d_to ++ ext

/-- The control-flow skeleton of `main`: token check (145-148, exit 2
before any network call), date-range resolution (150-154, a `ValueError`
raised before any network call), identity and membership fetch, organization
filtering (163-169), the zero-organization early return 0 (191-193,
before any file is opened), the fetch loop whose HTTP error aborts the
run with nothing written (233-272), and finally deduplicated results
written to the JSON and CSV files (274-300, return 0). -/
def mainSim (token : Option String) (args : Args) (world : World) :
    MainResult :=
  if !(truthyStr token) then ⟨.exited 2, [], false, []⟩
  else
    match resolveDateRange world.today args.date_from args.date_to with
    | .error _ => ⟨.raised .dateFormat, [], false, []⟩
    | .ok (d_from, d_to) =>
      let orgs := resolveOrgs world.memberships args.org
      if orgs.isEmpty then ⟨.exited 0, [], true, []⟩
      else
        match world.fetched with
        | .error s => ⟨.raised (.httpStatus s), [], true, []⟩
        | .ok recs =>
          ⟨.exited 0,
            [outName args.out d_from d_to ".json",
             outName args.out d_from d_to ".csv"],
            true, runDedup recs⟩

/-- Claim C8: with the token absent from the environment, the run reports
exit status 2 -- a non-zero status distinct from every raised-exception
failure -- makes no network call, and writes no file. -/
theorem C8_missing_token (args : Args) (world : World) :
    mainSim none args world
      = ⟨MainOutcome.exited 2, [], false, []⟩ ∧
    (2 : Int) ≠ 0 ∧
    ∀ e : MainErr, MainOutcome.exited 2 ≠ MainOutcome.raised e :=
  ⟨rfl, by decide, fun e h => by cases h⟩

/-- Claim C10: whenever the resolved organization set is empty, `main`
returns 0 immediately and neither the JSON nor the CSV file is created --
no file at all is written, and no records are produced. -/
theorem C10_zero_orgs (token : Option String) (args : Args) (world : World)
    (d1 d2 : Date)
    (htok : truthyStr token = true)
    (hdr : resolveDateRange world.today args.date_from args.date_to
      = Except.ok (d1, d2))
    (horgs : resolveOrgs world.memberships args.org = []) :
    mainSim token args world = ⟨MainOutcome.exited 0, [], true, []⟩ := by
  simp only [mainSim, htok, Bool.not_true, Bool.false_eq_true, if_false,
    hdr, horgs, List.isEmpty_nil, if_true]

/-- Concrete instance of Claim C10: an empty membership listing. -/
theorem C10_zero_orgs_witness :
    mainSim (some "tok")
      ⟨none, none, none, "github_activity"⟩
      ⟨"alice", [], Except.ok [], ⟨2024, 6, 1⟩⟩
      = ⟨MainOutcome.exited 0, [], true, []⟩ :=
  C10_zero_orgs (some "tok") ⟨none, none, none, "github_activity"⟩
    ⟨"alice", [], Except.ok [], ⟨2024, 6, 1⟩⟩
    (subDays ⟨2024, 6, 1⟩ 365) ⟨2024, 6, 1⟩ (by decide) rfl rfl

/-- Counterexample to Claim C6 as stated: a 304 response is non-2xx and
not a rate-limited 403, yet `_request` does not fail -- `raise_for_status`
only raises for 400-599, so the 304 response is returned as a success. -/
theorem C6_non_2xx_counterexample :
    runRequest 0 [SimResp.http 304 none none [] Json.null]
      = ReqResult.ok [0] (SimResp.http 304 none none [] Json.null) ∧
    (runRequest 0 [SimResp.http 304 none none [] Json.null]).isHttpErr
      = false :=
  ⟨rfl, rfl⟩

/-- Claim C6 as amended: for every response with status in 400-599 that
is not a 403 with rate-limit-remaining zero, the fetch fails immediately
with an HTTP-status error carrying that status -- one single request, no
retry -- and when the fetch loop of a run aborts with such an error, the
run raises, writing no output file and discarding all partial results. -/
theorem C6_http_error_propagation :
    (∀ (now : Int) (status : Nat) remaining reset link body rest,
      400 ≤ status → status < 600 →
      ¬(status = 403 ∧ remaining = some "0") →
      runRequest now (SimResp.http status remaining reset link body :: rest)
        = ReqResult.httpError status [now]) ∧
    (∀ (token : Option String) (args : Args) (world : World) (s : Nat),
      truthyStr token = true →
      ∀ d1 d2, resolveDateRange world.today args.date_from args.date_to
        = Except.ok (d1, d2) →
      resolveOrgs world.memberships args.org ≠ [] →
      world.fetched = Except.error s →
      mainSim token args world
        = ⟨MainOutcome.raised (MainErr.httpStatus s), [], true, []⟩) := by
  constructor
  · intro now status remaining reset link body rest h4 h6 h403
    have hstep : stepRequest now (.http status remaining reset link body)
        = .fail status := by
      rw [stepRequest, if_neg h403]
      have hr : raisesForStatus status = true := by
        simp only [raisesForStatus, Bool.and_eq_true, decide_eq_true_eq]
        exact ⟨h4, h6⟩
      rw [hr]
      simp
    rw [runRequest, hstep]
  · intro token args world s htok d1 d2 hdr horgs hfet
    have hne : (resolveOrgs world.memberships args.org).isEmpty = false := by
      cases hh : (resolveOrgs world.memberships args.org).isEmpty
      · rfl
      · exact absurd (List.isEmpty_iff.mp hh) horgs
    simp only [mainSim, htok, Bool.not_true, Bool.false_eq_true, if_false,
      hdr, hne, hfet]

/-- Concrete instance of the amended Claim C6: a 500 response fails at
once, and a run whose fetch loop hits it writes nothing. -/
theorem C6_http_error_witness :
    runRequest 7 [SimResp.http 500 none none [] Json.null]
      = ReqResult.httpError 500 [7] ∧
    mainSim (some "tok") ⟨none, none, none, "github_activity"⟩
      ⟨"alice", ["acme"], Except.error 500, ⟨2024, 6, 1⟩⟩
      = ⟨MainOutcome.raised (MainErr.httpStatus 500), [], true, []⟩ :=
  ⟨C6_http_error_propagation.1 7 500 none none [] Json.null []
      (by decide) (by decide) (by decide),
   C6_http_error_propagation.2 (some "tok")
      ⟨none, none, none, "github_activity"⟩
      ⟨"alice", ["acme"], Except.error 500, ⟨2024, 6, 1⟩⟩ 500 (by decide)
      (subDays ⟨2024, 6, 1⟩ 365) ⟨2024, 6, 1⟩ rfl (by decide) rfl⟩

end ActivityExporter
